import Mathlib

/-
Verification of the service-context scheduling engine
(trex_stl_service_int.py): the packet store, the pending-get event,
the TX buffer, the filter-group registry and the scheduler run loop,
shallowly embedded as executable Lean definitions.
-/

namespace STLServiceInt

/-- Packet payloads are modelled as opaque identifiers. -/
abbrev Payload := Nat

/-- Server timestamps are modelled as natural numbers. -/
abbrev Ts := Nat

/- ===================== Pkt store (class Pkt) ===================== -/

/-- Embeds the body of Pkt._do_get. The argument items is the queue of the
store, oldest entry first, and limit is the limit field of the waiting get
event (none means unlimited). The result is none when the store is empty
(the get event stays pending), and otherwise the pair of the value the get
event succeeds with immediately and the items left in the store. -/
def do_get (items : List α) (limit : Option Nat) : Option (List α × List α) :=
  if items.isEmpty then
    none
  else
    match limit with
    | none => some (items, [])
    | some n => some (items.take n, items.drop n)

/- ===================== PktRX (pending get event) ===================== -/

/-- State of one PktRX event: its limit field, whether the underlying simpy
event has been triggered, the value it succeeded with, and a counter of how
many times succeed was called on it (to state the no-double-resolution
property). -/
structure PktRXState where
  limit : Option Nat
  triggered : Bool
  result : Option (List Payload)
  resolutions : Nat
  deriving DecidableEq

/-- A freshly created pending get event with the given limit. -/
def freshRX (limit : Option Nat) : PktRXState :=
  { limit := limit, triggered := false, result := some [], resolutions := 0 }

/-- Embeds event.succeed(v): the event becomes triggered with value v. -/
def succeedRX (s : PktRXState) (v : List Payload) : PktRXState :=
  { s with triggered := true, result := some v, resolutions := s.resolutions + 1 }

/-- Embeds the resolution attempt a store put performs on the queued get
event: when the event is still pending, Pkt._do_get runs on the current
items and, when the store is non-empty, succeeds the event and removes the
consumed items. A triggered (or cancelled) event is no longer in the get
queue, so nothing happens to it. Returns the remaining items and the new
event state. -/
def trigger_get (items : List Payload) (s : PktRXState) : List Payload × PktRXState :=
  if s.triggered then (items, s)
  else
    match do_get items s.limit with
    | none => (items, s)
    | some pr => (pr.2, succeedRX s pr.1)

/-- Embeds PktRX.on_get_timeout: when the timeout fires, the event is
cancelled and succeeded with the empty list only if it has not already
been triggered. -/
def on_get_timeout (s : PktRXState) : PktRXState :=
  if s.triggered then s else succeedRX s []

/-- Stimuli that can reach a pending get event: a packet arrival (a store
put of one packet) or the firing of its timeout. -/
inductive Stim
  | put (p : Payload)
  | timer
  deriving DecidableEq

/-- Processes a sequence of stimuli against the store items and the pending
get event, in the order the run loop delivers them. -/
def runStims : List Stim → List Payload → PktRXState → List Payload × PktRXState
  | [], items, s => (items, s)
  | Stim.put p :: rest, items, s =>
      runStims rest (trigger_get (items ++ [p]) s).1 (trigger_get (items ++ [p]) s).2
  | Stim.timer :: rest, items, s => runStims rest items (on_get_timeout s)

/-- Resolution-count invariant for a get event: the number of succeed calls
is one when the event is triggered and zero otherwise. -/
def rxInv (s : PktRXState) : Prop :=
  s.resolutions = cond s.triggered 1 0

/- ===================== TXBuffer ===================== -/

/-- Embeds the TXBuffer object: the list of buffered payloads and the
identity of the current shared tx event (a fresh event object is modelled
by a fresh identifier). -/
structure TXBuffer where
  pkts : List Payload
  tx_event : Nat
  deriving DecidableEq

/-- Record of what one non-empty send_all performed: the payloads carried by
the single push_packets transmit call, the identity of the event it
resolved and the timestamp value the event resolved with. -/
structure TxRecord where
  sent : List Payload
  event : Nat
  value : Ts
  deriving DecidableEq

namespace TXBuffer

/-- Embeds TXBuffer.push: appends the payload and returns the current
shared tx event. -/
def push (b : TXBuffer) (p : Payload) : TXBuffer × Nat :=
  ({ b with pkts := b.pkts ++ [p] }, b.tx_event)

/-- Embeds TXBuffer.send_all: when the buffer is non-empty, one transmit
call carries all buffered payloads, the buffer is cleared, the shared event
is resolved with the transmit timestamp and a fresh event is allocated.
When the buffer is empty nothing happens. The tx_ts argument is the
timestamp the push_packets call returned. -/
def send_all (b : TXBuffer) (tx_ts : Ts) : TXBuffer × Option TxRecord :=
  if b.pkts.isEmpty then (b, none)
  else
    ({ pkts := [], tx_event := b.tx_event + 1 },
     some { sent := b.pkts, event := b.tx_event, value := tx_ts })

/-- Embeds TXBuffer.pending. -/
def pending (b : TXBuffer) : Nat :=
  b.pkts.length

/-- Pushes a list of payloads one by one, collecting the event handle each
push returned. -/
def pushAll (b : TXBuffer) (ps : List Payload) : TXBuffer × List Nat :=
  match ps with
  | [] => (b, [])
  | p :: rest =>
      ((pushAll (push b p).1 rest).1, (push b p).2 :: (pushAll (push b p).1 rest).2)

end TXBuffer

/- ===================== helper lemmas ===================== -/

theorem trigger_get_of_triggered (items : List Payload) (s : PktRXState)
    (h : s.triggered = true) : trigger_get items s = (items, s) := by
  simp [trigger_get, h]

theorem on_get_timeout_of_triggered (s : PktRXState)
    (h : s.triggered = true) : on_get_timeout s = s := by
  simp [on_get_timeout, h]

theorem runStims_of_triggered (stims : List Stim) (items : List Payload)
    (s : PktRXState) (h : s.triggered = true) :
    (runStims stims items s).2 = s := by
  induction stims generalizing items with
  | nil => rfl
  | cons st rest ih =>
    cases st with
    | put p =>
        rw [runStims, trigger_get_of_triggered _ _ h]
        exact ih _
    | timer =>
        rw [runStims, on_get_timeout_of_triggered _ h]
        exact ih _

theorem trigger_get_inv (items : List Payload) (s : PktRXState)
    (h : rxInv s) : rxInv (trigger_get items s).2 := by
  unfold trigger_get
  cases htr : s.triggered with
  | false =>
    cases hdg : do_get items s.limit with
    | none => simpa [htr, hdg] using h
    | some pr =>
      simp [rxInv, htr] at h
      simp [rxInv, htr, hdg, succeedRX, h]
  | true => simpa [htr] using h

theorem runStims_inv (stims : List Stim) (items : List Payload)
    (s : PktRXState) (h : rxInv s) : rxInv (runStims stims items s).2 := by
  induction stims generalizing items s with
  | nil => exact h
  | cons st rest ih =>
    cases st with
    | put p => exact ih _ _ (trigger_get_inv _ _ h)
    | timer =>
        rw [runStims]
        refine ih _ _ ?_
        unfold on_get_timeout
        cases htr : s.triggered with
        | false =>
          simp [rxInv, htr] at h
          simp [rxInv, succeedRX, h]
        | true => simpa [htr] using h

theorem pushAll_spec (b : TXBuffer) (ps : List Payload) :
    TXBuffer.pushAll b ps
      = ({ pkts := b.pkts ++ ps, tx_event := b.tx_event },
         List.replicate ps.length b.tx_event) := by
  induction ps generalizing b with
  | nil => simp [TXBuffer.pushAll]
  | cons p rest ih =>
    simp [TXBuffer.pushAll, TXBuffer.push, ih, List.replicate_succ]

/- ===================== claim theorems (store and buffer) ===================== -/

/-- C2: on a store holding M entries, a get with limit N (M at least N,
N at least 1) resolves immediately with exactly the N oldest entries in
arrival order, removes them, and leaves the remaining M minus N entries in
arrival order; with limit unset it resolves with all M entries and leaves
the store empty. -/
theorem do_get_limit_slices (items : List Payload) (N : Nat)
    (h1 : 1 ≤ N) (h2 : N ≤ items.length) :
    do_get items (some N) = some (items.take N, items.drop N)
    ∧ (items.take N).length = N
    ∧ items.take N ++ items.drop N = items
    ∧ do_get items none = some (items, []) := by
  have hne : items.isEmpty = false := by
    cases items with
    | nil => simp at h2; omega
    | cons a l => rfl
  refine ⟨by simp [do_get, hne], ?_, List.take_append_drop N items, by simp [do_get, hne]⟩
  simp [List.length_take]
  omega

theorem do_get_limit_slices_witness :
    do_get [3, 1, 2] (some 2) = some ([3, 1], [2])
    ∧ ([3, 1, 2].take 2).length = 2
    ∧ [3, 1, 2].take 2 ++ [3, 1, 2].drop 2 = [3, 1, 2]
    ∧ do_get ([3, 1, 2] : List Payload) none = some ([3, 1, 2], []) := by
  have h := do_get_limit_slices [3, 1, 2] 2 (by decide) (by decide)
  simpa using h

/-- C10: a get with limit 0 on a non-empty store resolves immediately with
the empty list and leaves the store unchanged; limit 0 means zero entries,
not unlimited. -/
theorem do_get_limit_zero (items : List Payload) (h : items ≠ []) :
    do_get items (some 0) = some ([], items) := by
  have hne : items.isEmpty = false := by
    cases items with
    | nil => exact absurd rfl h
    | cons a l => rfl
  simp [do_get, hne]

theorem do_get_limit_zero_witness :
    do_get [4, 5] (some 0) = some ([], [4, 5]) :=
  do_get_limit_zero [4, 5] (by decide)

/-- C3: a pending get on an empty store is resolved exactly once for every
sequence of arrivals and timer firings: the first arrival resolves it with
up to limit entries (all of them when the limit is unset), a timeout that
fires first resolves it with the empty result, and the timeout handler is a
no-op on an already resolved event, so the arrival outcome stands when both
apply at the same instant and no event is ever double-resolved. -/
theorem pkt_get_single_resolution (L : Option Nat) :
    (∀ stims items0,
        ((runStims stims items0 (freshRX L)).2).resolutions ≤ 1)
    ∧ (∀ p rest,
        ((runStims (Stim.put p :: rest) [] (freshRX L)).2).result
            = Option.map Prod.fst (do_get [p] L)
        ∧ ((runStims (Stim.put p :: rest) [] (freshRX L)).2).triggered = true)
    ∧ (∀ rest,
        ((runStims (Stim.timer :: rest) [] (freshRX L)).2).result = some []
        ∧ ((runStims (Stim.timer :: rest) [] (freshRX L)).2).resolutions = 1)
    ∧ (∀ s, s.triggered = true → on_get_timeout s = s) := by
  have hfresh : rxInv (freshRX L) := by simp [rxInv, freshRX]
  refine ⟨?_, ?_, ?_, fun s hs => on_get_timeout_of_triggered s hs⟩
  · intro stims items0
    have h := runStims_inv stims items0 (freshRX L) hfresh
    rw [rxInv] at h
    rw [h]
    cases (runStims stims items0 (freshRX L)).2.triggered <;> simp
  · intro p rest
    have hdg : ∃ pr, do_get [p] L = some pr := by
      cases L with
      | none => exact ⟨([p], []), rfl⟩
      | some n => exact ⟨([p].take n, [p].drop n), rfl⟩
    obtain ⟨pr, hpr⟩ := hdg
    have hstep : trigger_get ([] ++ [p]) (freshRX L) = (pr.2, succeedRX (freshRX L) pr.1) := by
      simp [trigger_get, freshRX, hpr]
    rw [runStims, hstep]
    have hdone := runStims_of_triggered rest pr.2 (succeedRX (freshRX L) pr.1) rfl
    simp only [hdone]
    simp [succeedRX, hpr]
  · intro rest
    have hstep : on_get_timeout (freshRX L) = succeedRX (freshRX L) [] := by
      simp [on_get_timeout, freshRX]
    rw [runStims, hstep]
    have hdone := runStims_of_triggered rest [] (succeedRX (freshRX L) []) rfl
    simp only [hdone]
    simp [succeedRX, freshRX]

theorem pkt_get_single_resolution_witness :
    ((runStims [Stim.put 5, Stim.timer] [] (freshRX (some 1))).2).result = some [5]
    ∧ on_get_timeout { limit := some 1, triggered := true, result := some [5], resolutions := 1 }
        = { limit := some 1, triggered := true, result := some [5], resolutions := 1 } := by
  have h := pkt_get_single_resolution (some 1)
  constructor
  · have h2 := (h.2.1 5 [Stim.timer]).1
    simpa [do_get] using h2
  · exact h.2.2.2 _ rfl

/-- C4: K payloads pushed between two flushes all receive the same shared
tx event, and the next send_all performs exactly one transmit carrying all
K payloads in push order, clears the buffer, resolves that shared event
with the single transmit timestamp and allocates a fresh event. -/
theorem txbuffer_batch (e : Nat) (ps : List Payload) (ts : Ts) (hK : ps ≠ []) :
    (TXBuffer.pushAll { pkts := [], tx_event := e } ps).2 = List.replicate ps.length e
    ∧ TXBuffer.send_all (TXBuffer.pushAll { pkts := [], tx_event := e } ps).1 ts
        = ({ pkts := [], tx_event := e + 1 },
           some { sent := ps, event := e, value := ts })
    ∧ e + 1 ≠ e := by
  have hp := pushAll_spec { pkts := [], tx_event := e } ps
  have hne : ps.isEmpty = false := by
    cases ps with
    | nil => exact absurd rfl hK
    | cons a l => rfl
  refine ⟨by rw [hp], ?_, by omega⟩
  rw [hp]
  simp [TXBuffer.send_all, hne]

theorem txbuffer_batch_witness :
    (TXBuffer.pushAll { pkts := [], tx_event := 0 } [5, 7]).2 = List.replicate 2 0
    ∧ TXBuffer.send_all (TXBuffer.pushAll { pkts := [], tx_event := 0 } [5, 7]).1 3
        = ({ pkts := [], tx_event := 1 },
           some { sent := [5, 7], event := 0, value := 3 })
    ∧ 0 + 1 ≠ 0 :=
  txbuffer_batch 0 [5, 7] 3 (by decide)

/-- C5: send_all on an empty buffer is a no-op: no transmit record is
produced, no event is resolved, and the buffer and its current shared
event are unchanged. -/
theorem send_all_empty_noop (e : Nat) (ts : Ts) :
    TXBuffer.send_all { pkts := [], tx_event := e } ts
      = ({ pkts := [], tx_event := e }, none) := rfl

/- ===================== STLServiceCtx (scheduler) ===================== -/

/-- Filter types are identified by a tag, standing for the class object
used as the dictionary key in the filters dict. -/
abbrev FilterType := Nat

/-- A service task is core-visible only through its declared filter type. -/
structure Service where
  ftype : FilterType
  deriving DecidableEq

/-- An element of a list or tuple argument passed to run: either a genuine
STLService instance or some other object. -/
inductive ArgItem
  | service (s : Service)
  | nonService
  deriving DecidableEq

/-- The shape of the services argument of STLServiceCtx.run: a single
STLService instance, a list or tuple, or any other object. -/
inductive RunArg
  | single (s : Service)
  | listArg (xs : List ArgItem)
  | other
  deriving DecidableEq

/-- Errors the run can surface: port-state validation failure, the
configuration error raised by the argument-shape check of ctx add, a
transport failure from start_capture or the run body, and a failure raised
by a stop_capture call during teardown. -/
inductive Err
  | precondition
  | config
  | transport
  | stopFail
  deriving DecidableEq

/-- Embeds the isinstance STLService test on one collection element. -/
def isServiceItem : ArgItem → Bool
  | ArgItem.service _ => true
  | ArgItem.nonService => false

def itemService : ArgItem → Option Service
  | ArgItem.service s => some s
  | ArgItem.nonService => none

/-- Embeds the shape validation of ctx add: a single STLService is
accepted, a list or tuple all of whose elements are STLService instances
is accepted elementwise, and anything else raises STLError. -/
def addArg : RunArg → Except Err (List Service)
  | RunArg.single s => Except.ok [s]
  | RunArg.listArg xs =>
      if xs.all isServiceItem then Except.ok (xs.filterMap itemService)
      else Except.error Err.config
  | RunArg.other => Except.error Err.config

/-- The argument shapes ctx add accepts. -/
def goodShape : RunArg → Bool
  | RunArg.single _ => true
  | RunArg.listArg xs => xs.all isServiceItem
  | RunArg.other => false

/-- Embeds the filters dict built by add_single_service: one filter group
per distinct filter type, in first-registration order. -/
def filterTypes (ss : List Service) : List FilterType :=
  ss.foldl (fun acc s => if s.ftype ∈ acc then acc else acc ++ [s.ftype]) []

/-- Observable effects of one run, in program order: the port-state
validation, the state reset, the creation of the simpy environment and the
TXBuffer, the spawning of one service process, the read of the promiscuous
attribute, a set of the promiscuous attribute, a successful start_capture
for a filter group (recording the returned capture id), a stop_capture
call, and a batched transmit. -/
inductive Effect
  | validate
  | reset
  | envCreated
  | spawn (i : Nat)
  | getPromisc (wasOn : Bool)
  | setPromisc (promiscuous : Bool)
  | startCapture (fidx cid : Nat)
  | stopCapture (cid : Nat)
  | transmit (pkts : List Payload)
  deriving DecidableEq

/-- Oracle for the port and client collaborator: whether the port-state
validation passes, the current promiscuous attribute, the capture id
start_capture returns for the i-th filter group (none means the call
raises), whether stop_capture on a given id succeeds, and whether the run
body (the tick loop) completes without raising. -/
structure Client where
  validateOk : Bool
  promOn : Bool
  captureId : Nat → Option Nat
  stopOk : Nat → Bool
  bodyOk : Bool

/-- Embeds the start-capture loop of the run: filter groups are visited in
order and their capture_id field is assigned from start_capture; when a
call raises, the remaining groups keep their initial None id and the
exception aborts the loop. Returns the emitted effects, the capture_id
field of every group, and whether the loop completed. -/
def startCaps (c : Client) : List Nat → List Effect × List (Option Nat) × Bool
  | [] => ([], [], true)
  | i :: rest =>
      match c.captureId i with
      | none => ([], (none : Option Nat) :: rest.map (fun _ => (none : Option Nat)), false)
      | some cid =>
          (Effect.startCapture i cid :: (startCaps c rest).1,
           some cid :: (startCaps c rest).2.1,
           (startCaps c rest).2.2)

/-- Embeds the stop-capture loop of the finally block: each group with a
non-null capture_id gets a stop_capture call, groups whose id is None are
skipped, and an exception from one stop_capture aborts the loop so the
remaining groups are not visited. Returns the emitted effects and whether
the loop completed. -/
def stopCaps (c : Client) : List (Option Nat) → List Effect × Bool
  | [] => ([], true)
  | none :: rest => stopCaps c rest
  | some cid :: rest =>
      if c.stopOk cid then
        (Effect.stopCapture cid :: (stopCaps c rest).1, (stopCaps c rest).2)
      else ([Effect.stopCapture cid], false)

/-- Embeds the finally block of the run: stop all captures, then, when the
prior promiscuous flag was off, restore it to off, then reset the run
state. An exception from a stop_capture call propagates and skips the
promiscuous restore and the reset. -/
def teardown (c : Client) (ids : List (Option Nat)) (wasProm : Bool) :
    List Effect × Bool :=
  if (stopCaps c ids).2 then
    ((stopCaps c ids).1
      ++ (if wasProm then [] else [Effect.setPromisc false])
      ++ [Effect.reset], true)
  else ((stopCaps c ids).1, false)

/-- Effects of the run between a successful shape validation and the try
block: environment and TXBuffer creation, process spawning, the
promiscuous read, and the enable toggle when the port was not already
promiscuous. -/
def preTrace (c : Client) (ss : List Service) : List Effect :=
  [Effect.validate, Effect.reset, Effect.envCreated]
    ++ (List.range ss.length).map Effect.spawn
    ++ [Effect.getPromisc c.promOn]
    ++ (if c.promOn then [] else [Effect.setPromisc true])

/-- Embeds STLServiceCtx run: validate the port state, reset, validate the
argument shape, create the environment and the TXBuffer, spawn the service
processes, save and enable the promiscuous flag, start one capture per
filter group, run the tick loop, and always execute the finally block.
Returns the effect trace and the outcome. -/
def run (c : Client) (arg : RunArg) : List Effect × Except Err Unit :=
  if c.validateOk then
    match addArg arg with
    | Except.error e => ([Effect.validate, Effect.reset], Except.error e)
    | Except.ok ss =>
        let s := startCaps c (List.range (filterTypes ss).length)
        let t := teardown c s.2.1 c.promOn
        let outcome : Except Err Unit :=
          if t.2 = false then Except.error Err.stopFail
          else if s.2.2 = false then Except.error Err.transport
          else if c.bodyOk then Except.ok ()
          else Except.error Err.transport
        (preTrace c ss ++ s.1 ++ t.1, outcome)
  else ([Effect.validate], Except.error Err.precondition)

/-- Extracts the flag value an effect writes to the promiscuous attribute,
if any. -/
def promiscSet : Effect → Option Bool
  | Effect.setPromisc b => some b
  | _ => none

/-- The promiscuous attribute of the port after a trace of effects,
starting from the given initial flag. -/
def promiscAfter (init : Bool) : List Effect → Bool
  | [] => init
  | ev :: rest => promiscAfter ((promiscSet ev).getD init) rest

/- ===================== tick loop ===================== -/

/-- Events of one iteration of the tick process, in execution order: the
send_all flush (a no-op on an empty buffer, a transmit otherwise), the
capture dispatch of one filter group, and the backoff sleep. -/
inductive TickEvt
  | flushTx (sent : List Payload)
  | flushNoop
  | dispatch (ft : FilterType)
  | sleepBackoff
  deriving DecidableEq

/-- The flush event the tick emits for the given pending buffer. -/
def flushEvt (pend : List Payload) : TickEvt :=
  if pend.isEmpty then TickEvt.flushNoop else TickEvt.flushTx pend

/-- Embeds the body of one iteration of tick_process: first send_all, then
one capture dispatch per filter group in registry order, then either a
return (when the active service count is zero) or the backoff sleep. -/
def tick_trace (fs : List FilterType) (pend : List Payload) (active : Nat) :
    List TickEvt :=
  flushEvt pend
    :: (fs.map TickEvt.dispatch
        ++ (if active = 0 then [] else [TickEvt.sleepBackoff]))

/-- State the tick loop carries between iterations: the TXBuffer contents
and the active service count. -/
structure TickState where
  txPkts : List Payload
  activeServices : Nat
  deriving DecidableEq

/-- Embeds the tick_process loop with explicit fuel: each iteration emits
its tick_trace, returns when the active service count is zero, and
otherwise sleeps the backoff and iterates with a flushed buffer. The Bool
reports whether the loop returned within the given fuel. -/
def tick_loop : Nat → List FilterType → TickState → List TickEvt × Bool
  | 0, _, _ => ([], false)
  | Nat.succ fuel, fs, st =>
      if st.activeServices = 0 then (tick_trace fs st.txPkts st.activeServices, true)
      else
        (tick_trace fs st.txPkts st.activeServices
           ++ (tick_loop fuel fs { st with txPkts := [] }).1,
         (tick_loop fuel fs { st with txPkts := [] }).2)

/-- All payloads transmitted by the flushes of ticks 0 through t, where
pushes i is the batch sitting in the TXBuffer at the start of tick i
(pushes 0 is what the tasks queued before the first tick, and pushes
followed by i plus one is what they queued during the backoff of tick i). -/
def transmittedUpTo (pushes : Nat → List Payload) : Nat → List Payload
  | 0 => pushes 0
  | Nat.succ t => transmittedUpTo pushes t ++ pushes (t + 1)

/-- Over-approximation of the pushed payloads the capture dispatch of tick
t can deliver to any packet store: only payloads already transmitted by
the flush of tick t or earlier can have been captured on the port. -/
def deliveredAt (pushes : Nat → List Payload) (t : Nat) : List Payload :=
  transmittedUpTo pushes t

/- ===================== scheduler helper lemmas ===================== -/

theorem startCaps_effects (c : Client) (idxs : List Nat) :
    ∀ ev ∈ (startCaps c idxs).1, ∃ i cid, ev = Effect.startCapture i cid := by
  induction idxs with
  | nil => intro ev hev; simp [startCaps] at hev
  | cons j rest ih =>
    cases hcj : c.captureId j with
    | none => intro ev hev; simp [startCaps, hcj] at hev
    | some cj =>
      intro ev hev
      simp only [startCaps, hcj] at hev
      rcases List.mem_cons.mp hev with h | h
      · exact ⟨j, cj, h⟩
      · exact ih ev h

theorem startCaps_trace_ids (c : Client) (idxs : List Nat) (i cid : Nat)
    (h : Effect.startCapture i cid ∈ (startCaps c idxs).1) :
    some cid ∈ (startCaps c idxs).2.1 := by
  induction idxs with
  | nil => simp [startCaps] at h
  | cons j rest ih =>
    cases hcj : c.captureId j with
    | none => simp [startCaps, hcj] at h
    | some cj =>
      simp only [startCaps, hcj] at h ⊢
      rcases List.mem_cons.mp h with h1 | h1
      · injection h1 with h2 h3
        subst h3
        exact List.mem_cons_self _ _
      · exact List.mem_cons_of_mem _ (ih h1)

theorem startCaps_ids_trace (c : Client) (idxs : List Nat) (cid : Nat)
    (h : some cid ∈ (startCaps c idxs).2.1) :
    ∃ i, Effect.startCapture i cid ∈ (startCaps c idxs).1 := by
  induction idxs with
  | nil => simp [startCaps] at h
  | cons j rest ih =>
    cases hcj : c.captureId j with
    | none => simp [startCaps, hcj] at h
    | some cj =>
      simp only [startCaps, hcj] at h ⊢
      rcases List.mem_cons.mp h with h1 | h1
      · injection h1 with h2
        subst h2
        exact ⟨j, List.mem_cons_self _ _⟩
      · obtain ⟨i, hi⟩ := ih h1
        exact ⟨i, List.mem_cons_of_mem _ hi⟩

theorem startCaps_no_stopCapture (c : Client) (idxs : List Nat) (cid : Nat) :
    Effect.stopCapture cid ∉ (startCaps c idxs).1 := by
  intro hmem
  obtain ⟨i, cid2, heq⟩ := startCaps_effects c idxs _ hmem
  simp at heq

theorem startCaps_no_setPromisc (c : Client) (idxs : List Nat) (b : Bool) :
    Effect.setPromisc b ∉ (startCaps c idxs).1 := by
  intro hmem
  obtain ⟨i, cid2, heq⟩ := startCaps_effects c idxs _ hmem
  simp at heq

theorem stopCaps_effects (c : Client) (ids : List (Option Nat)) :
    ∀ ev ∈ (stopCaps c ids).1, ∃ cid, ev = Effect.stopCapture cid := by
  induction ids with
  | nil => intro ev hev; simp [stopCaps] at hev
  | cons o rest ih =>
    cases o with
    | none =>
      intro ev hev
      simp only [stopCaps] at hev
      exact ih ev hev
    | some cid =>
      intro ev hev
      cases hok : c.stopOk cid with
      | false =>
        simp [stopCaps, hok] at hev
        exact ⟨cid, hev⟩
      | true =>
        simp only [stopCaps, hok, if_true] at hev
        rcases List.mem_cons.mp hev with h | h
        · exact ⟨cid, h⟩
        · exact ih ev h

theorem stopCaps_no_setPromisc (c : Client) (ids : List (Option Nat)) (b : Bool) :
    Effect.setPromisc b ∉ (stopCaps c ids).1 := by
  intro hmem
  obtain ⟨cid, heq⟩ := stopCaps_effects c ids _ hmem
  simp at heq

theorem stopCaps_no_startCapture (c : Client) (ids : List (Option Nat)) (i cid : Nat) :
    Effect.startCapture i cid ∉ (stopCaps c ids).1 := by
  intro hmem
  obtain ⟨cid2, heq⟩ := stopCaps_effects c ids _ hmem
  simp at heq

theorem stopCaps_ok_of_all (c : Client) (ids : List (Option Nat))
    (hstop : ∀ cid, c.stopOk cid = true) : (stopCaps c ids).2 = true := by
  induction ids with
  | nil => rfl
  | cons o rest ih =>
    cases o with
    | none => simpa only [stopCaps] using ih
    | some cid => simp only [stopCaps, hstop cid, if_true]; exact ih

theorem stopCaps_mem_of_all (c : Client) (ids : List (Option Nat))
    (hstop : ∀ cid, c.stopOk cid = true) (cid : Nat) (h : some cid ∈ ids) :
    Effect.stopCapture cid ∈ (stopCaps c ids).1 := by
  induction ids with
  | nil => simp at h
  | cons o rest ih =>
    cases o with
    | none =>
      simp only [stopCaps]
      rcases List.mem_cons.mp h with h1 | h1
      · exact absurd h1 (by simp)
      · exact ih h1
    | some cj =>
      simp only [stopCaps, hstop cj, if_true]
      rcases List.mem_cons.mp h with h1 | h1
      · injection h1 with h2
        subst h2
        exact List.mem_cons_self _ _
      · exact List.mem_cons_of_mem _ (ih h1)

theorem stopCaps_trace_sub (c : Client) (ids : List (Option Nat)) (cid : Nat)
    (h : Effect.stopCapture cid ∈ (stopCaps c ids).1) : some cid ∈ ids := by
  induction ids with
  | nil => simp [stopCaps] at h
  | cons o rest ih =>
    cases o with
    | none =>
      simp only [stopCaps] at h
      exact List.mem_cons_of_mem _ (ih h)
    | some cj =>
      cases hok : c.stopOk cj with
      | false =>
        simp [stopCaps, hok] at h
        rw [h]
        exact List.mem_cons_self _ _
      | true =>
        simp only [stopCaps, hok, if_true] at h
        rcases List.mem_cons.mp h with h1 | h1
        · injection h1 with h2
          subst h2
          exact List.mem_cons_self _ _
        · exact List.mem_cons_of_mem _ (ih h1)

theorem preTrace_no_startCapture (c : Client) (ss : List Service) (i cid : Nat) :
    Effect.startCapture i cid ∉ preTrace c ss := by
  cases hcp : c.promOn <;> simp [preTrace, hcp]

theorem preTrace_no_stopCapture (c : Client) (ss : List Service) (cid : Nat) :
    Effect.stopCapture cid ∉ preTrace c ss := by
  cases hcp : c.promOn <;> simp [preTrace, hcp]

theorem preTrace_no_setPromisc_of_on (c : Client) (ss : List Service)
    (hcp : c.promOn = true) (b : Bool) :
    Effect.setPromisc b ∉ preTrace c ss := by
  simp [preTrace, hcp]

theorem promiscAfter_append (init : Bool) (l1 l2 : List Effect) :
    promiscAfter init (l1 ++ l2) = promiscAfter (promiscAfter init l1) l2 := by
  induction l1 generalizing init with
  | nil => rfl
  | cons ev rest ih =>
    simp only [List.cons_append, promiscAfter]
    exact ih _

theorem promiscAfter_of_no_set (init : Bool) (l : List Effect)
    (h : ∀ b, Effect.setPromisc b ∉ l) : promiscAfter init l = init := by
  induction l with
  | nil => rfl
  | cons ev rest ih =>
    have hev : promiscSet ev = none := by
      cases ev
      case setPromisc b => exact absurd (List.mem_cons_self _ _) (h b)
      all_goals rfl
    simp only [promiscAfter, hev, Option.getD_none]
    exact ih (fun b hb => h b (List.mem_cons_of_mem _ hb))

theorem preTrace_promisc (c : Client) (ss : List Service) (init : Bool) :
    promiscAfter init (preTrace c ss) = (if c.promOn then init else true) := by
  unfold preTrace
  rw [promiscAfter_append, promiscAfter_append, promiscAfter_append]
  have h1 : promiscAfter init [Effect.validate, Effect.reset, Effect.envCreated] = init := rfl
  rw [h1]
  have h2 : promiscAfter init ((List.range ss.length).map Effect.spawn) = init :=
    promiscAfter_of_no_set _ _ (by simp)
  rw [h2]
  have h3 : promiscAfter init [Effect.getPromisc c.promOn] = init := rfl
  rw [h3]
  cases hcp : c.promOn <;> simp [promiscAfter, promiscSet]

theorem teardown_stop_iff (c : Client) (ids : List (Option Nat)) (wp : Bool) (cid : Nat) :
    Effect.stopCapture cid ∈ (teardown c ids wp).1
      ↔ Effect.stopCapture cid ∈ (stopCaps c ids).1 := by
  unfold teardown
  cases hok : (stopCaps c ids).2 <;> cases wp <;> simp [hok]

theorem teardown_no_startCapture (c : Client) (ids : List (Option Nat)) (wp : Bool)
    (i cid : Nat) : Effect.startCapture i cid ∉ (teardown c ids wp).1 := by
  intro hmem
  unfold teardown at hmem
  cases hok : (stopCaps c ids).2 <;> rw [hok] at hmem <;> cases wp <;>
    simp at hmem <;> exact stopCaps_no_startCapture c ids i cid hmem

theorem teardown_no_setPromisc_of_on (c : Client) (ids : List (Option Nat)) (b : Bool) :
    Effect.setPromisc b ∉ (teardown c ids true).1 := by
  intro hmem
  unfold teardown at hmem
  cases hok : (stopCaps c ids).2 <;> rw [hok] at hmem <;> simp at hmem <;>
    exact stopCaps_no_setPromisc c ids b hmem

theorem teardown_promisc_false (c : Client) (ids : List (Option Nat))
    (hok : (stopCaps c ids).2 = true) (init : Bool) :
    promiscAfter init (teardown c ids false).1 = false := by
  unfold teardown
  rw [hok]
  simp only [if_true]
  rw [promiscAfter_append, promiscAfter_append]
  have h1 : promiscAfter init (stopCaps c ids).1 = init :=
    promiscAfter_of_no_set _ _ (fun b => stopCaps_no_setPromisc c ids b)
  rw [h1]
  rfl

theorem teardown_ok_of_all (c : Client) (ids : List (Option Nat)) (wp : Bool)
    (hstop : ∀ cid, c.stopOk cid = true) : (teardown c ids wp).2 = true := by
  unfold teardown
  rw [stopCaps_ok_of_all c ids hstop]
  simp

theorem addArg_ok_of_goodShape (arg : RunArg) (h : goodShape arg = true) :
    ∃ ss, addArg arg = Except.ok ss := by
  cases arg with
  | single s => exact ⟨[s], rfl⟩
  | listArg xs =>
    simp only [goodShape] at h
    exact ⟨xs.filterMap itemService, by simp [addArg, h]⟩
  | other => simp [goodShape] at h

theorem run_fst_ok (c : Client) (arg : RunArg) (ss : List Service)
    (hv : c.validateOk = true) (ha : addArg arg = Except.ok ss) :
    (run c arg).1
      = preTrace c ss
        ++ (startCaps c (List.range (filterTypes ss).length)).1
        ++ (teardown c (startCaps c (List.range (filterTypes ss).length)).2.1 c.promOn).1 := by
  simp [run, hv, ha]

/- ===================== claim theorems (scheduler) ===================== -/

/-- C1: within one tick the send_all flush is the head event of the tick
trace and every filter-group capture dispatch occurs strictly after it in
the tail; consequently a payload that the tasks queue during tick t (so it
sits in the batch flushed at tick t plus one) has not been transmitted by
the flush of tick t, hence the dispatch of tick t cannot deliver it to any
packet store, while the dispatch of the following tick can. -/
theorem flush_precedes_dispatch_no_same_tick_reply
    (fs : List FilterType) (pend : List Payload) (active : Nat)
    (pushes : Nat → List Payload) (p : Payload) (t : Nat)
    (hp : p ∈ pushes (t + 1)) (hfresh : ∀ i, i ≤ t → p ∉ pushes i) :
    (tick_trace fs pend active).head? = some (flushEvt pend)
    ∧ (∀ ft, flushEvt pend ≠ TickEvt.dispatch ft)
    ∧ (∀ ft, TickEvt.dispatch ft ∈ tick_trace fs pend active →
        TickEvt.dispatch ft ∈ (tick_trace fs pend active).tail)
    ∧ p ∉ deliveredAt pushes t
    ∧ p ∈ deliveredAt pushes (t + 1) := by
  have hnot : p ∉ transmittedUpTo pushes t := by
    clear hp
    induction t with
    | zero => exact hfresh 0 (Nat.le_refl 0)
    | succ n ih =>
      intro hmem
      simp only [transmittedUpTo] at hmem
      rcases List.mem_append.mp hmem with h1 | h2
      · exact ih (fun i hi => hfresh i (Nat.le_succ_of_le hi)) h1
      · exact hfresh (n + 1) (Nat.le_refl _) h2
  refine ⟨rfl, ?_, ?_, hnot, ?_⟩
  · intro ft
    unfold flushEvt
    cases hpe : pend.isEmpty <;> simp
  · intro ft hmem
    simp only [tick_trace] at hmem ⊢
    rcases List.mem_cons.mp hmem with h1 | h1
    · exfalso
      unfold flushEvt at h1
      cases hpe : pend.isEmpty <;> rw [hpe] at h1 <;> simp at h1
    · simpa using h1
  · simp only [deliveredAt, transmittedUpTo]
    exact List.mem_append.mpr (Or.inr hp)

/-- Example push schedule: one payload queued during the backoff of tick
zero, so it sits in the buffer flushed at tick one. -/
def pushesEx : Nat → List Payload := fun i => if i = 1 then [7] else []

theorem flush_precedes_dispatch_no_same_tick_reply_witness :
    7 ∉ deliveredAt pushesEx 0 ∧ 7 ∈ deliveredAt pushesEx 1 := by
  have h := flush_precedes_dispatch_no_same_tick_reply [0] [] 0 pushesEx 7 0
      (by simp [pushesEx])
      (by
        intro i hi
        have h0 : i = 0 := Nat.le_zero.mp hi
        subst h0
        simp [pushesEx])
  exact ⟨h.2.2.2.1, h.2.2.2.2⟩

/-- C6 (amended): at run teardown a stop_capture call is issued for every
filter group whose capture session was started, even when the run body
raised, and only for those groups (null session ids are skipped); this
holds provided no stop_capture call itself raises, because the teardown
loop has no per-group exception handling. -/
theorem stop_captures_attempted (c : Client) (arg : RunArg)
    (hstop : ∀ cid, c.stopOk cid = true) :
    (∀ i cid, Effect.startCapture i cid ∈ (run c arg).1 →
        Effect.stopCapture cid ∈ (run c arg).1)
    ∧ (∀ cid, Effect.stopCapture cid ∈ (run c arg).1 →
        ∃ i, Effect.startCapture i cid ∈ (run c arg).1) := by
  cases hv : c.validateOk with
  | false =>
    constructor
    · intro i cid hmem
      simp [run, hv] at hmem
    · intro cid hmem
      simp [run, hv] at hmem
  | true =>
    cases haa : addArg arg with
    | error e =>
      constructor
      · intro i cid hmem
        simp [run, hv, haa] at hmem
      · intro cid hmem
        simp [run, hv, haa] at hmem
    | ok ss =>
      have hrun := run_fst_ok c arg ss hv haa
      constructor
      · intro i cid hmem
        rw [hrun] at hmem
        rcases List.mem_append.mp hmem with h1 | h2
        · rcases List.mem_append.mp h1 with hpre | hsc
          · exact absurd hpre (preTrace_no_startCapture c ss i cid)
          · have hid := startCaps_trace_ids c _ i cid hsc
            have hsm := stopCaps_mem_of_all c _ hstop cid hid
            rw [hrun]
            exact List.mem_append.mpr
              (Or.inr ((teardown_stop_iff c _ c.promOn cid).mpr hsm))
        · exact absurd h2 (teardown_no_startCapture c _ c.promOn i cid)
      · intro cid hmem
        rw [hrun] at hmem
        rcases List.mem_append.mp hmem with h1 | h2
        · rcases List.mem_append.mp h1 with hpre | hsc
          · exact absurd hpre (preTrace_no_stopCapture c ss cid)
          · exact absurd hsc (startCaps_no_stopCapture c _ cid)
        · have hsc := (teardown_stop_iff c _ c.promOn cid).mp h2
          have hid := stopCaps_trace_sub c _ cid hsc
          obtain ⟨i, hi⟩ := startCaps_ids_trace c _ cid hid
          rw [hrun]
          exact ⟨i, List.mem_append.mpr (Or.inl (List.mem_append.mpr (Or.inr hi)))⟩

/-- Run argument holding two services with distinct filter types. -/
def exArgTwo : RunArg :=
  RunArg.listArg [ArgItem.service { ftype := 0 }, ArgItem.service { ftype := 1 }]

/-- Client whose run body raises and whose stop_capture calls succeed. -/
def exClientBodyFail : Client :=
  { validateOk := true, promOn := true, captureId := fun i => some (i + 1),
    stopOk := fun _ => true, bodyOk := false }

theorem stop_captures_attempted_witness :
    Effect.stopCapture 1 ∈ (run exClientBodyFail exArgTwo).1
    ∧ Effect.stopCapture 2 ∈ (run exClientBodyFail exArgTwo).1 := by
  have h := stop_captures_attempted exClientBodyFail exArgTwo (fun _ => rfl)
  exact ⟨h.1 0 1 (by decide), h.1 1 2 (by decide)⟩

/-- Client whose stop_capture call on capture id one raises. -/
def exClientStopFail : Client :=
  { validateOk := true, promOn := true, captureId := fun i => some (i + 1),
    stopOk := fun cid => cid != 1, bodyOk := false }

/-- C6 counterexample: with two started capture sessions and a run body
that raised, a stop_capture failure on the first group aborts the teardown
loop, so the second started session is never stopped, refuting the claimed
per-group best-effort behaviour. -/
theorem stop_capture_failure_blocks_remaining_groups :
    Effect.startCapture 1 2 ∈ (run exClientStopFail exArgTwo).1
    ∧ Effect.stopCapture 1 ∈ (run exClientStopFail exArgTwo).1
    ∧ Effect.stopCapture 2 ∉ (run exClientStopFail exArgTwo).1
    ∧ (run exClientStopFail exArgTwo).2 = Except.error Err.stopFail :=
  ⟨by decide, by decide, by decide, rfl⟩

/-- C7 (amended): when the port was not promiscuous at run start, the run
enables promiscuous mode and teardown disables it again on every exit
path, provided no stop_capture call in teardown raises; when the port was
already promiscuous the flag is never written at all. -/
theorem promisc_enabled_and_restored (c : Client) (arg : RunArg)
    (hstop : ∀ cid, c.stopOk cid = true) :
    (c.promOn = false → promiscAfter false (run c arg).1 = false)
    ∧ (c.promOn = false → c.validateOk = true → goodShape arg = true →
        Effect.setPromisc true ∈ (run c arg).1)
    ∧ (c.promOn = true → ∀ b, Effect.setPromisc b ∉ (run c arg).1) := by
  refine ⟨?_, ?_, ?_⟩
  · intro hcp
    cases hv : c.validateOk with
    | false => simp [run, hv, promiscAfter, promiscSet]
    | true =>
      cases haa : addArg arg with
      | error e => simp [run, hv, haa, promiscAfter, promiscSet]
      | ok ss =>
        have hrun := run_fst_ok c arg ss hv haa
        rw [hrun, promiscAfter_append, promiscAfter_append, preTrace_promisc, hcp]
        have hs : promiscAfter (if false then false else true)
            (startCaps c (List.range (filterTypes ss).length)).1
              = (if false then false else true) :=
          promiscAfter_of_no_set _ _ (fun b => startCaps_no_setPromisc c _ b)
        rw [hs]
        exact teardown_promisc_false c _
          (stopCaps_ok_of_all c _ hstop) _
  · intro hcp hv hgs
    obtain ⟨ss, haa⟩ := addArg_ok_of_goodShape arg hgs
    have hrun := run_fst_ok c arg ss hv haa
    rw [hrun]
    refine List.mem_append.mpr (Or.inl (List.mem_append.mpr (Or.inl ?_)))
    simp [preTrace, hcp]
  · intro hcp b
    cases hv : c.validateOk with
    | false => simp [run, hv]
    | true =>
      cases haa : addArg arg with
      | error e => simp [run, hv, haa]
      | ok ss =>
        have hrun := run_fst_ok c arg ss hv haa
        rw [hrun]
        intro hmem
        rcases List.mem_append.mp hmem with h1 | h2
        · rcases List.mem_append.mp h1 with hpre | hsc
          · exact absurd hpre (preTrace_no_setPromisc_of_on c ss hcp b)
          · exact absurd hsc (startCaps_no_setPromisc c _ b)
        · rw [hcp] at h2
          exact absurd h2 (teardown_no_setPromisc_of_on c _ b)

/-- Client attached to a non-promiscuous port, with all calls succeeding. -/
def exClientPromOff : Client :=
  { validateOk := true, promOn := false, captureId := fun i => some (i + 1),
    stopOk := fun _ => true, bodyOk := true }

theorem promisc_enabled_and_restored_witness :
    promiscAfter false (run exClientPromOff exArgTwo).1 = false
    ∧ Effect.setPromisc true ∈ (run exClientPromOff exArgTwo).1 := by
  have h := promisc_enabled_and_restored exClientPromOff exArgTwo (fun _ => rfl)
  exact ⟨h.1 rfl, h.2.1 rfl rfl (by decide)⟩

/-- Client attached to a non-promiscuous port whose stop_capture on
capture id one raises. -/
def exClientPromStopFail : Client :=
  { validateOk := true, promOn := false, captureId := fun i => some (i + 1),
    stopOk := fun cid => cid != 1, bodyOk := true }

/-- C7 counterexample: the port starts non-promiscuous and the run enables
promiscuous mode, but a stop_capture failure during teardown skips the
restore, leaving the flag promiscuous after the run ends, refuting the
claimed restore on every exit path. -/
theorem promisc_left_enabled_on_stop_failure :
    Effect.setPromisc true ∈ (run exClientPromStopFail exArgTwo).1
    ∧ Effect.setPromisc false ∉ (run exClientPromStopFail exArgTwo).1
    ∧ promiscAfter false (run exClientPromStopFail exArgTwo).1 = true := by
  decide

/-- C8: the run accepts a single service or a list/tuple whose elements
are all services, and for every other argument shape it stops with the
configuration error before the environment and the TXBuffer are created,
before any process is spawned, and before any port side effect (no
promiscuous write, no capture start, no transmit). -/
theorem registration_shape_checked_early (c : Client) (arg : RunArg)
    (hv : c.validateOk = true) :
    (goodShape arg = true → ∃ ss, addArg arg = Except.ok ss)
    ∧ (goodShape arg = false →
        run c arg = ([Effect.validate, Effect.reset], Except.error Err.config)
        ∧ Effect.envCreated ∉ (run c arg).1
        ∧ (∀ i, Effect.spawn i ∉ (run c arg).1)
        ∧ (∀ b, Effect.setPromisc b ∉ (run c arg).1)
        ∧ (∀ i cid, Effect.startCapture i cid ∉ (run c arg).1)
        ∧ (∀ ps, Effect.transmit ps ∉ (run c arg).1)) := by
  refine ⟨addArg_ok_of_goodShape arg, ?_⟩
  intro hbad
  have haa : addArg arg = Except.error Err.config := by
    cases arg with
    | single s => simp [goodShape] at hbad
    | listArg xs =>
      simp only [goodShape] at hbad
      simp [addArg, hbad]
    | other => rfl
  have hrun : run c arg = ([Effect.validate, Effect.reset], Except.error Err.config) := by
    simp [run, hv, haa]
  refine ⟨hrun, ?_, ?_, ?_, ?_, ?_⟩
  · rw [hrun]; simp
  · intro i; rw [hrun]; simp
  · intro b; rw [hrun]; simp
  · intro i cid; rw [hrun]; simp
  · intro ps; rw [hrun]; simp

/-- Client for which every collaborator call succeeds. -/
def exClientOk : Client :=
  { validateOk := true, promOn := false, captureId := fun i => some (i + 1),
    stopOk := fun _ => true, bodyOk := true }

theorem registration_shape_checked_early_witness :
    run exClientOk RunArg.other
      = ([Effect.validate, Effect.reset], Except.error Err.config) := by
  have h := registration_shape_checked_early exClientOk RunArg.other rfl
  exact (h.2 rfl).1

/-- C9: a run registered with the empty list is legal and terminating: the
argument check accepts it, the tick loop observes active count zero on its
first flush-and-dispatch pass and returns without ever sleeping the
backoff, and the whole run completes without error. -/
theorem zero_services_terminates_first_tick (fuel : Nat) (hf : 1 ≤ fuel)
    (c : Client) (hv : c.validateOk = true) (hb : c.bodyOk = true) :
    addArg (RunArg.listArg []) = Except.ok []
    ∧ tick_loop fuel [] { txPkts := [], activeServices := 0 }
        = ([TickEvt.flushNoop], true)
    ∧ TickEvt.sleepBackoff ∉ (tick_loop fuel [] { txPkts := [], activeServices := 0 }).1
    ∧ (run c (RunArg.listArg [])).2 = Except.ok () := by
  obtain ⟨n, rfl⟩ : ∃ n, fuel = n + 1 := ⟨fuel - 1, by omega⟩
  have hloop : tick_loop (n + 1) [] { txPkts := [], activeServices := 0 }
      = ([TickEvt.flushNoop], true) := by
    simp [tick_loop, tick_trace, flushEvt]
  refine ⟨rfl, hloop, by rw [hloop]; simp, ?_⟩
  simp [run, hv, hb, addArg, filterTypes, startCaps, teardown, stopCaps]

theorem zero_services_terminates_first_tick_witness :
    tick_loop 1 [] { txPkts := [], activeServices := 0 } = ([TickEvt.flushNoop], true)
    ∧ (run exClientOk (RunArg.listArg [])).2 = Except.ok () := by
  have h := zero_services_terminates_first_tick 1 (by decide) exClientOk rfl rfl
  exact ⟨h.2.1, h.2.2.2⟩

end STLServiceInt
